import Mathlib

/-!
Shallow embedding of the tlsx output writer (pkg/output/output.go) and
verification of its specification claims.

Text is modelled as Lean String (a wrapper around List Char).  All bytes
relevant to the claims are ASCII, where Go byte sequences and Lean char
sequences coincide; in particular the ESC byte 0x1B appears in UTF-8 only
as the standalone scalar 27, so the char-level model of the decolorizer
regex is faithful to the byte-level Go regexp.
-/

/-- Models strings.Join(l, ",") from the Go standard library. -/
def joinComma : List String → String
  | [] => ""
  | [s] => s
  | s :: rest => s ++ "," ++ joinComma rest

/-- Concatenation of a list of strings (used to state fold results). -/
def strConcat : List String → String
  | [] => ""
  | s :: rest => s ++ strConcat rest

/-- Helper for splitComma: accumulates the current field in reverse. -/
def splitCommaChars : List Char → List Char → List String
  | [], cur => [String.mk cur.reverse]
  | c :: rest, cur =>
    if c = ',' then String.mk cur.reverse :: splitCommaChars rest []
    else splitCommaChars rest (c :: cur)

/-- Models strings.Split(s, ",") from the Go standard library. -/
def splitComma (s : String) : List String := splitCommaChars s.data []

/-- Models strings.Replace(s, "*.", "", -1) on char lists: removes the
leftmost-first non-overlapping occurrences of the two-char pattern. -/
def replaceStarDotChars : List Char → List Char
  | '*' :: '.' :: rest => replaceStarDotChars rest
  | c :: rest => c :: replaceStarDotChars rest
  | [] => []

/-- Models strings.Replace(value, "*.", "", -1) as used by the name
normalizer in output.go. -/
def replaceStarDot (s : String) : String := String.mk (replaceStarDotChars s.data)

/-- Models strings.ToUpper for the ASCII range (Char.toUpper maps basic
latin lower case letters; fields reaching this call are ASCII). -/
def goToUpper (s : String) : String := String.mk (s.data.map Char.toUpper)

/-- Drops one leading newline character if present (helper for the
TrimSuffix model, operating on the reversed char list). -/
def dropOneLeadingNL : List Char → List Char
  | [] => []
  | c :: rest => if c = '\n' then rest else c :: rest

/-- Trims at most one trailing newline from a char list: the exact
behaviour of bytes.TrimSuffix(data, newline) in output.go line 69. -/
def trimNL (l : List Char) : List Char := (dropOneLeadingNL l.reverse).reverse

/-- Models bytes.TrimSuffix(data, newline) on strings. -/
def trimSuffixNewline (s : String) : String := String.mk (trimNL s.data)

/-- Number of leading newline characters of a char list. -/
def countLeadingNL (l : List Char) : Nat := (l.takeWhile (fun c => c = '\n')).length

/-- Number of trailing newline characters of a char list (spec-side measure
used to state the line-terminator claims). -/
def countTrailingNL (l : List Char) : Nat := countLeadingNL l.reverse

/-- The ASCII escape character 0x1B. -/
def ESC : Char := '\x1B'

/-- Membership in the regex character class of digits and semicolons,
written over code points: matches the class inside the decolorizer regex
in output.go line 24. -/
def IsCSIBody (c : Char) : Prop := (48 ≤ c.toNat ∧ c.toNat ≤ 57) ∨ c.toNat = 59

instance (c : Char) : Decidable (IsCSIBody c) := by
  unfold IsCSIBody; infer_instance

/-- Membership in the regex character class of ASCII letters, written over
code points: matches the final class of the decolorizer regex. -/
def IsAlphaChar (c : Char) : Prop :=
  (97 ≤ c.toNat ∧ c.toNat ≤ 122) ∨ (65 ≤ c.toNat ∧ c.toNat ≤ 90)

instance (c : Char) : Decidable (IsAlphaChar c) := by
  unfold IsAlphaChar; infer_instance

/-- After ESC and an opening bracket, consume digits and semicolons
greedily, then require a single letter; returns the rest of the input on a
match.  The two character classes are disjoint, so this deterministic scan
agrees with the regex engine. -/
def csiTail : List Char → Option (List Char)
  | [] => none
  | c :: rest =>
    if IsCSIBody c then csiTail rest
    else if IsAlphaChar c then some rest
    else none

/-- Attempts to match the decolorizer regex at the head of the input,
returning the remaining input on success. -/
def csiMatch : List Char → Option (List Char)
  | c1 :: c2 :: rest => if c1 = ESC ∧ c2 = '[' then csiTail rest else none
  | _ => none

/-- Fuel-indexed scanner that removes every leftmost non-overlapping match
of the decolorizer regex, continuing after each removed match: the
semantics of regexp.ReplaceAll with an empty replacement. -/
def stripFuel : Nat → List Char → List Char
  | 0, l => l
  | _ + 1, [] => []
  | fuel + 1, c :: rest =>
    match csiMatch (c :: rest) with
    | some rest2 => stripFuel fuel rest2
    | none => c :: stripFuel fuel rest

/-- Models decolorizerRegex.ReplaceAll(data, empty) from output.go. -/
def stripEsc (l : List Char) : List Char := stripFuel l.length l

/-- String-level wrapper of the escape stripper. -/
def stripEscStr (s : String) : String := String.mk (stripEsc s.data)

/-- Decides whether some position of the input starts a match of the
decolorizer regex (spec-side detector of escape control sequences). -/
def hasEscapeSeq : List Char → Bool
  | [] => false
  | c :: rest => (csiMatch (c :: rest)).isSome || hasEscapeSeq rest

/-- Char lists built from ESC-free fragments and well-formed color control
sequences.  Every formatted text record with ESC-free fields has this
shape, which is what makes the stripper remove all color codes from it. -/
inductive Clean : List Char → Prop
  | nil : Clean []
  | plain {c : Char} {l : List Char} : c ≠ ESC → Clean l → Clean (c :: l)
  | seq {body : List Char} {a : Char} {l : List Char} :
      (∀ c ∈ body, IsCSIBody c) → IsAlphaChar a → Clean l →
      Clean (ESC :: '[' :: (body ++ a :: l))

/-- Modelled from the spec: certificate fingerprints block of the clients
package (md5, sha1, sha256 hex strings), whose source is not part of the
output package. -/
structure FingerprintHash where
  md5 : String
  sha1 : String
  sha256 : String
deriving DecidableEq

/-- Modelled from the spec: certificate block of a scan result as used by
the writer (subject common name, alternative names, organizations, expiry
and self-signed flags, fingerprints). -/
structure CertificateResponse where
  subjectCN : String
  subjectAN : List String
  subjectOrg : List String
  expired : Bool
  selfSigned : Bool
  fingerprintHash : FingerprintHash
deriving DecidableEq

/-- Modelled from the spec: one scan result record received by the writer
(host, port, negotiated version, cipher, certificate block). -/
structure Response where
  host : String
  port : String
  version : String
  cipher : String
  certificateResponse : CertificateResponse
deriving DecidableEq

/-- Modelled from the spec: the presentation configuration toggles read by
the writer (clients.Options fields used in output.go). -/
structure Options where
  json : Bool
  noColor : Bool
  outputFile : String
  respOnly : Bool
  san : Bool
  cn : Bool
  so : Bool
  tlsVersion : Bool
  cipher : Bool
  expired : Bool
  selfSigned : Bool
  hash : String
deriving DecidableEq

/-- Models the aurora color decorator: when enabled it wraps the text in
an ANSI color sequence with the given numeric code, otherwise it is the
identity (aurora.NewAurora(enabled) in output.go line 48). -/
def auroraColor (enabled : Bool) (code : String) (s : String) : String :=
  if enabled then "\x1B[" ++ code ++ "m" ++ s ++ "\x1B[0m" else s

/-- Models the switch over hash algorithm names in formatStandard
(output.go lines 168..176): unknown keys yield the empty string. -/
def hashValue (cert : CertificateResponse) (h : String) : String :=
  if h = "md5" then cert.fingerprintHash.md5
  else if h = "sha1" then cert.fingerprintHash.sha1
  else if h = "sha256" then cert.fingerprintHash.sha256
  else ""

/-- Models the outputPrefix variable of formatStandard (output.go lines
105..111): host and port joined by a colon unless RespOnly is set. -/
def outputPrefixStr (opts : Options) (out : Response) : String :=
  if opts.respOnly then "" else out.host ++ ":" ++ out.port

/-- Models the names slice built in formatStandard (output.go lines
115..121): alternative names when SAN is enabled followed by the common
name when CN is enabled. -/
def certNames (opts : Options) (cert : CertificateResponse) : List String :=
  (if opts.san then cert.subjectAN else []) ++ (if opts.cn then [cert.subjectCN] else [])

/-- Models uniqueNormalizeCertNames (output.go lines 190..203): normalizes
each name by removing the wildcard pattern and keeps each normalized name
once.  The Go code collects results through a map whose iteration order is
unspecified; this model keeps first-insertion order, and every claim about
the result is stated insensitively to the order. -/
def uniqueNormalizeCertNames (names : List String) : List String :=
  names.foldl
    (fun acc value =>
      if replaceStarDot value ∈ acc then acc else acc ++ [replaceStarDot value])
    []

/-- Models one name line written by the loop in formatStandard (output.go
lines 123..134): bare name in RespOnly mode, otherwise the prefix and the
cyan-decorated name in brackets. -/
def nameLine (opts : Options) (out : Response) (name : String) : String :=
  if opts.respOnly then name ++ "\n"
  else
    outputPrefixStr opts out ++ " [" ++ auroraColor (!opts.noColor) "36" name ++ "]\n"

/-- Models one bracketed hash segment written by the loop in
formatStandard (output.go lines 165..181). -/
def hashSegmentOf (opts : Options) (cert : CertificateResponse) (h : String) : String :=
  " [" ++ auroraColor (!opts.noColor) "95" (hashValue cert h) ++ "]"

/-- Faithful translation of StandardWriter.formatStandard (output.go lines
102..187): sequential builder appends, with each conditional append
mirrored by an if over the same condition. -/
def formatStandard (opts : Options) (output : Response) : String :=
  let cert := output.certificateResponse
  let uniqueNames := uniqueNormalizeCertNames (certNames opts cert)
  let b := ""
  let b :=
    if uniqueNames.length > 0 then
      uniqueNames.foldl (fun acc name => acc ++ nameLine opts output name) b
    else b
  let b := if opts.san = false ∧ opts.cn = false then b ++ outputPrefixStr opts output else b
  let b :=
    if opts.so = true ∧ cert.subjectOrg ≠ [] then
      b ++ (" [" ++ auroraColor (!opts.noColor) "93" (joinComma cert.subjectOrg) ++ "]")
    else b
  let b :=
    if opts.tlsVersion = true then
      b ++ (" [" ++ auroraColor (!opts.noColor) "34" (goToUpper output.version) ++ "]")
    else b
  let b :=
    if opts.cipher = true then
      b ++ (" [" ++ auroraColor (!opts.noColor) "32" output.cipher ++ "]")
    else b
  let b :=
    if opts.expired = true ∧ cert.expired = true then
      b ++ (" [" ++ auroraColor (!opts.noColor) "31" "expired" ++ "]")
    else b
  let b :=
    if opts.selfSigned = true ∧ cert.selfSigned = true then
      b ++ (" [" ++ auroraColor (!opts.noColor) "33" "self-signed" ++ "]")
    else b
  let b :=
    if opts.hash ≠ "" then
      (splitComma opts.hash).foldl (fun acc h => acc ++ hashSegmentOf opts cert h) b
    else b
  b

/-- Spec-side decomposition, name block: one line per normalized name. -/
def specNameBlock (opts : Options) (out : Response) : String :=
  strConcat
    ((uniqueNormalizeCertNames (certNames opts out.certificateResponse)).map
      (nameLine opts out))

/-- Spec-side decomposition, summary-line prefix: written only when
neither SAN nor CN is included. -/
def specSummaryPrefixSeg (opts : Options) (out : Response) : String :=
  if opts.san = false ∧ opts.cn = false then outputPrefixStr opts out else ""

/-- Spec-side decomposition, organization segment. -/
def specOrgSeg (opts : Options) (out : Response) : String :=
  if opts.so = true ∧ out.certificateResponse.subjectOrg ≠ [] then
    " [" ++ auroraColor (!opts.noColor) "93" (joinComma out.certificateResponse.subjectOrg) ++ "]"
  else ""

/-- Spec-side decomposition, tls version segment. -/
def specVersionSeg (opts : Options) (out : Response) : String :=
  if opts.tlsVersion = true then
    " [" ++ auroraColor (!opts.noColor) "34" (goToUpper out.version) ++ "]"
  else ""

/-- Spec-side decomposition, cipher segment. -/
def specCipherSeg (opts : Options) (out : Response) : String :=
  if opts.cipher = true then
    " [" ++ auroraColor (!opts.noColor) "32" out.cipher ++ "]"
  else ""

/-- Spec-side decomposition, expired flag segment. -/
def specExpiredSeg (opts : Options) (out : Response) : String :=
  if opts.expired = true ∧ out.certificateResponse.expired = true then
    " [" ++ auroraColor (!opts.noColor) "31" "expired" ++ "]"
  else ""

/-- Spec-side decomposition, self-signed flag segment. -/
def specSelfSignedSeg (opts : Options) (out : Response) : String :=
  if opts.selfSigned = true ∧ out.certificateResponse.selfSigned = true then
    " [" ++ auroraColor (!opts.noColor) "33" "self-signed" ++ "]"
  else ""

/-- Spec-side decomposition, hash block: one bracketed segment per entry
of the comma-split hash option, in the configured order. -/
def specHashBlock (opts : Options) (out : Response) : String :=
  if opts.hash ≠ "" then
    strConcat ((splitComma opts.hash).map (hashSegmentOf opts out.certificateResponse))
  else ""

/-- Models errors.Wrap from github.com/pkg/errors: annotates a non-nil
error with a message and returns nil unchanged. -/
def errorsWrap (err : Option String) (message : String) : Option String :=
  match err with
  | none => none
  | some e => some (message ++ ": " ++ e)

/-- Model of the StandardWriter state: the json flag and aurora instance
are captured at construction from the options, the file sink presence
models outputFile being non-nil. -/
structure StandardWriter where
  json : Bool
  hasOutputFile : Bool
  options : Options
deriving DecidableEq

/-- Models output.New (output.go lines 37..54): the secondary sink exists
exactly when an output file path is configured (successful construction;
ConstructionError is outside the verified claims). -/
def New (options : Options) : StandardWriter :=
  { json := options.json
    hasOutputFile := options.outputFile ≠ ""
    options := options }

/-- Outcome of one submit call: the chunks written to the primary sink,
the chunks handed to the secondary file sink, and the returned error. -/
structure WriteResult where
  primaryWrites : List String
  fileWrites : List String
  err : Option String
deriving DecidableEq

/-- Result of the formatting step of Write: jsoniter serialization is an
external library, so the json branch is parametrized by a marshal
function that may fail; the text branch never fails (output.go line 186
returns a nil error). -/
def formatOf (w : StandardWriter) (marshal : Response → Except String String)
    (event : Response) : Except String String :=
  if w.json then marshal event else Except.ok (formatStandard w.options event)

/-- Faithful translation of StandardWriter.Write (output.go lines 57..86).
The primary sink write errors are discarded by the Go code (blank
assignments on lines 74..75), so primaryWriteErr is ignored; a secondary
sink write failure takes the branch on line 81 which returns
errors.Wrap(err, ...) where err is the nil formatting error, mirrored
here as errorsWrap none applied to the same message. -/
def StandardWriter.write (w : StandardWriter) (marshal : Response → Except String String)
    (primaryWriteErr fileWriteErr : Option String) (event : Response) : WriteResult :=
  match formatOf w marshal event with
  | Except.error e =>
    { primaryWrites := [], fileWrites := [],
      err := errorsWrap (some e) "could not format output" }
  | Except.ok d =>
    let data := trimSuffixNewline d
    let primary := [data, "\n"]
    let _ := primaryWriteErr
    if w.hasOutputFile then
      let fileData := if w.json = false then stripEscStr data else data
      match fileWriteErr with
      | some _ =>
        { primaryWrites := primary, fileWrites := [],
          err := errorsWrap none "could not write to output" }
      | none =>
        { primaryWrites := primary, fileWrites := [fileData], err := none }
    else
      { primaryWrites := primary, fileWrites := [], err := none }

/-- ESC-freeness of a string, decidably. -/
def noEscStr (s : String) : Bool := s.data.all (fun c => c != ESC)

/-- Decidable predicate on a record: every string field that can reach the
text formatter is free of the ESC character. -/
def escFree (out : Response) : Bool :=
  noEscStr out.host && noEscStr out.port && noEscStr out.version &&
  noEscStr out.cipher && noEscStr out.certificateResponse.subjectCN &&
  out.certificateResponse.subjectAN.all noEscStr &&
  out.certificateResponse.subjectOrg.all noEscStr &&
  noEscStr out.certificateResponse.fingerprintHash.md5 &&
  noEscStr out.certificateResponse.fingerprintHash.sha1 &&
  noEscStr out.certificateResponse.fingerprintHash.sha256

/-- Sample fingerprint block used by concrete witnesses. -/
def fpSample : FingerprintHash :=
  { md5 := "d41d8cd98f", sha1 := "da39a3ee5e", sha256 := "e3b0c44298" }

/-- Sample certificate with a wildcard alternative name. -/
def certSample : CertificateResponse :=
  { subjectCN := "example.com"
    subjectAN := ["*.example.com", "a.example.com"]
    subjectOrg := ["Example Org"]
    expired := true
    selfSigned := true
    fingerprintHash := fpSample }

/-- Sample certificate with no alternative names. -/
def certNoAN : CertificateResponse :=
  { subjectCN := "example.com"
    subjectAN := []
    subjectOrg := []
    expired := false
    selfSigned := false
    fingerprintHash := fpSample }

/-- Baseline options: text mode, color on, no file sink, all toggles off. -/
def optsBase : Options :=
  { json := false, noColor := false, outputFile := "", respOnly := false
    san := false, cn := false, so := false, tlsVersion := false
    cipher := false, expired := false, selfSigned := false, hash := "" }

/-- Options with a secondary file sink configured. -/
def optsFile : Options := { optsBase with outputFile := "out.txt" }

/-- Options in json mode with a secondary file sink configured. -/
def optsJsonFile : Options := { optsBase with json := true, outputFile := "out.txt" }

/-- Options with SAN and CN inclusion and several presentation toggles. -/
def optsRich : Options :=
  { optsBase with
    outputFile := "out.txt"
    san := true
    cn := true
    so := true
    tlsVersion := true
    cipher := true
    expired := true
    selfSigned := true
    hash := "sha256,md5" }

/-- Sample record with escape-free fields. -/
def respSample : Response :=
  { host := "example.com", port := "443", version := "tls12"
    cipher := "TLS_AES_128_GCM_SHA256", certificateResponse := certSample }

/-- Record whose host splices two escape-sequence fragments so that
stripping once leaves a new complete escape sequence. -/
def respEscTrick : Response :=
  { host := "\x1B[\x1B[0m0m", port := "1", version := "tls12"
    cipher := "c", certificateResponse := certNoAN }

/-- Record whose port ends with two newline characters, so the formatted
payload ends with two trailing line terminators. -/
def respTwoNL : Response :=
  { host := "h", port := "1\n\n", version := "tls12"
    cipher := "c", certificateResponse := certNoAN }

/-- Marshal stub that always fails (models a jsoniter serialization
failure). -/
def marshalFail : Response → Except String String := fun _ => Except.error "boom"

/-- Marshal stub that always succeeds with a fixed payload. -/
def marshalOk : Response → Except String String := fun _ => Except.ok "{}"

/-- Folding builder appends over a list equals the initial builder followed
by the concatenation of the appended pieces. -/
theorem foldl_append_strConcat {α : Type} (f : α → String) :
    ∀ (l : List α) (b : String),
      l.foldl (fun acc x => acc ++ f x) b = b ++ strConcat (l.map f) := by
  intro l
  induction l with
  | nil => intro b; simp [strConcat]
  | cons a rest ih =>
    intro b
    simp only [List.foldl_cons, List.map_cons, strConcat]
    rw [ih, String.append_assoc]

/-- The redundant non-emptiness guard around the name loop collapses. -/
theorem ite_fold_len {α : Type} (f : α → String) (l : List α) (b : String) :
    (if l.length > 0 then l.foldl (fun acc x => acc ++ f x) b else b)
      = b ++ strConcat (l.map f) := by
  cases l with
  | nil => simp [strConcat]
  | cons a rest => simp only [List.length_cons, if_pos (Nat.succ_pos rest.length),
      foldl_append_strConcat]

/-- Guarded builder fold pushed into a guarded concatenation. -/
theorem ite_foldl_app {α : Type} (c : Prop) [Decidable c] (f : α → String)
    (l : List α) (b : String) :
    (if c then l.foldl (fun acc x => acc ++ f x) b else b)
      = b ++ (if c then strConcat (l.map f) else "") := by
  split
  · exact foldl_append_strConcat f l b
  · simp

/-- Guarded builder append pushed into a guarded segment. -/
theorem ite_app (c : Prop) [Decidable c] (b s : String) :
    (if c then b ++ s else b) = b ++ (if c then s else "") := by
  split <;> simp

/-- Decomposition of the imperative builder chain of formatStandard into
the fixed sequence of independent segments described by the spec. -/
theorem formatStandard_decomp (opts : Options) (out : Response) :
    formatStandard opts out
      = specNameBlock opts out ++ (specSummaryPrefixSeg opts out ++ (specOrgSeg opts out ++
        (specVersionSeg opts out ++ (specCipherSeg opts out ++ (specExpiredSeg opts out ++
        (specSelfSignedSeg opts out ++ specHashBlock opts out)))))) := by
  simp only [formatStandard, specNameBlock, specSummaryPrefixSeg, specOrgSeg,
    specVersionSeg, specCipherSeg, specExpiredSeg, specSelfSignedSeg, specHashBlock]
  rw [ite_fold_len, ite_app, ite_app, ite_app, ite_app, ite_app, ite_app, ite_foldl_app]
  simp only [String.append_assoc, String.empty_append]

/-- C9: in text mode the enabled segments appear in the fixed order name
block, organization, tls version, cipher, expired flag, self-signed flag,
hash block, for every subset of enabled presentation toggles: the
formatted record is exactly the concatenation of the spec-side segment
functions in that order. -/
theorem c9_text_mode_field_order :
    ∀ (opts : Options) (out : Response),
      formatStandard opts out
        = specNameBlock opts out ++ (specSummaryPrefixSeg opts out ++ (specOrgSeg opts out ++
          (specVersionSeg opts out ++ (specCipherSeg opts out ++ (specExpiredSeg opts out ++
          (specSelfSignedSeg opts out ++ specHashBlock opts out)))))) :=
  fun opts out => formatStandard_decomp opts out

/-- C7: with respOnly set, the host and port prefix is empty and the
formatted output does not depend on the host and port fields at all, so
no emitted line carries a host and port prefix. -/
theorem c7_resp_only_prefix_empty :
    ∀ (opts : Options) (out : Response) (h p : String), opts.respOnly = true →
      outputPrefixStr opts out = "" ∧
      formatStandard opts out = formatStandard opts { out with host := h, port := p } := by
  intro opts out h p hr
  constructor
  · simp [outputPrefixStr, hr]
  · have hnl : nameLine opts out = nameLine opts { out with host := h, port := p } := by
      funext name
      simp [nameLine, hr]
    rw [formatStandard_decomp, formatStandard_decomp]
    simp [specNameBlock, specSummaryPrefixSeg, specOrgSeg, specVersionSeg,
      specCipherSeg, specExpiredSeg, specSelfSignedSeg, specHashBlock,
      outputPrefixStr, hr, hnl]

/-- Witness for the respOnly claim at a concrete record. -/
theorem c7_resp_only_prefix_empty_witness :
    outputPrefixStr { optsBase with respOnly := true } respSample = "" ∧
    formatStandard { optsBase with respOnly := true } respSample
      = formatStandard { optsBase with respOnly := true }
          { respSample with host := "other", port := "80" } :=
  c7_resp_only_prefix_empty { optsBase with respOnly := true } respSample "other" "80" rfl

/-- C10: in text mode with respOnly false, when SAN or CN inclusion is on
but the normalized name list is empty, the output contains no host and
port prefix at all: it does not depend on the host and port fields. -/
theorem c10_empty_names_prefix_absent :
    ∀ (opts : Options) (out : Response) (h p : String),
      opts.respOnly = false → (opts.san || opts.cn) = true →
      uniqueNormalizeCertNames (certNames opts out.certificateResponse) = [] →
      formatStandard opts out = formatStandard opts { out with host := h, port := p } := by
  intro opts out h p _ hsc hu
  have hcond : ¬(opts.san = false ∧ opts.cn = false) := by
    rcases Bool.or_eq_true _ _ |>.mp hsc with h1 | h1 <;> simp [h1]
  rw [formatStandard_decomp, formatStandard_decomp]
  simp [specNameBlock, specSummaryPrefixSeg, specOrgSeg, specVersionSeg,
    specCipherSeg, specExpiredSeg, specSelfSignedSeg, specHashBlock, hu, hcond]

/-- Witness: SAN inclusion on, certificate with no alternative names. -/
theorem c10_empty_names_prefix_absent_witness :
    formatStandard { optsBase with san := true }
        { respSample with certificateResponse := certNoAN }
      = formatStandard { optsBase with san := true }
          { { respSample with certificateResponse := certNoAN } with
            host := "other", port := "80" } :=
  c10_empty_names_prefix_absent { optsBase with san := true }
    { respSample with certificateResponse := certNoAN } "other" "80" rfl rfl (by decide)

/-- Changing only the hash option splits the formatted record into the
hash-free part followed by the hash block. -/
theorem formatStandard_hash_split (opts : Options) (out : Response) :
    formatStandard opts out
      = formatStandard { opts with hash := "" } out ++ specHashBlock opts out := by
  have hnl : nameLine { opts with hash := "" } out = nameLine opts out := by
    funext name
    simp [nameLine, outputPrefixStr]
  rw [formatStandard_decomp, formatStandard_decomp]
  simp [specNameBlock, specSummaryPrefixSeg, specOrgSeg, specVersionSeg,
    specCipherSeg, specExpiredSeg, specSelfSignedSeg, specHashBlock, hnl,
    outputPrefixStr, certNames, String.append_assoc]

/-- C6: the summary line carries one bracketed hash segment per entry of
the comma-split hash option, in the configured order, each containing the
corresponding fingerprint value, with an empty value for an unrecognized
key; with hash set to sha256 and md5 there are exactly two segments with
the sha256 value first. -/
theorem c6_hash_block_order :
    (∀ (opts : Options) (out : Response),
        formatStandard opts out
          = formatStandard { opts with hash := "" } out ++ specHashBlock opts out) ∧
    (∀ (cert : CertificateResponse) (h : String),
        h ≠ "md5" → h ≠ "sha1" → h ≠ "sha256" → hashValue cert h = "") ∧
    (∀ (opts : Options) (out : Response), opts.hash = "sha256,md5" →
        formatStandard opts out
          = formatStandard { opts with hash := "" } out ++
            (" [" ++ auroraColor (!opts.noColor) "95"
                out.certificateResponse.fingerprintHash.sha256 ++ "]" ++
             (" [" ++ auroraColor (!opts.noColor) "95"
                out.certificateResponse.fingerprintHash.md5 ++ "]"))) := by
  refine ⟨formatStandard_hash_split, ?_, ?_⟩
  · intro cert h h1 h2 h3
    simp [hashValue, h1, h2, h3]
  · intro opts out hh
    rw [formatStandard_hash_split opts out]
    congr 1
    have hsplit : splitComma opts.hash = ["sha256", "md5"] := by rw [hh]; decide
    simp [specHashBlock, hh, hsplit, hashSegmentOf, hashValue, strConcat,
      String.append_assoc, String.append_empty]

/-- Witness for the hash block claim at a concrete record. -/
theorem c6_hash_block_order_witness :
    optsRich.hash = "sha256,md5" ∧
    formatStandard optsRich respSample
      = formatStandard { optsRich with hash := "" } respSample ++
        (" [" ++ auroraColor (!optsRich.noColor) "95"
            respSample.certificateResponse.fingerprintHash.sha256 ++ "]" ++
         (" [" ++ auroraColor (!optsRich.noColor) "95"
            respSample.certificateResponse.fingerprintHash.md5 ++ "]")) :=
  ⟨rfl, c6_hash_block_order.2.2 optsRich respSample rfl⟩

/-- Membership characterization of the dedup fold of the normalizer. -/
theorem mem_uniq_foldl :
    ∀ (names acc : List String) (s : String),
      s ∈ names.foldl
            (fun acc value =>
              if replaceStarDot value ∈ acc then acc else acc ++ [replaceStarDot value])
            acc
        ↔ s ∈ acc ∨ ∃ n ∈ names, replaceStarDot n = s := by
  intro names
  induction names with
  | nil => intro acc s; simp
  | cons v rest ih =>
    intro acc s
    simp only [List.foldl_cons]
    rw [ih]
    by_cases hv : replaceStarDot v ∈ acc
    · simp only [if_pos hv]
      constructor
      · rintro (h | ⟨n, hn, he⟩)
        · exact Or.inl h
        · exact Or.inr ⟨n, List.mem_cons_of_mem v hn, he⟩
      · rintro (h | ⟨n, hn, he⟩)
        · exact Or.inl h
        · rcases List.mem_cons.mp hn with h1 | h1
          · subst h1
            rw [← he]
            exact Or.inl hv
          · exact Or.inr ⟨n, h1, he⟩
    · simp only [if_neg hv, List.mem_append, List.mem_singleton]
      constructor
      · rintro ((h | h) | ⟨n, hn, he⟩)
        · exact Or.inl h
        · exact Or.inr ⟨v, List.mem_cons_self v rest, h.symm⟩
        · exact Or.inr ⟨n, List.mem_cons_of_mem v hn, he⟩
      · rintro (h | ⟨n, hn, he⟩)
        · exact Or.inl (Or.inl h)
        · rcases List.mem_cons.mp hn with h1 | h1
          · subst h1
            exact Or.inl (Or.inr he.symm)
          · exact Or.inr ⟨n, h1, he⟩

/-- The dedup fold of the normalizer preserves the no-duplicates
invariant of the accumulator. -/
theorem nodup_uniq_foldl :
    ∀ (names acc : List String), acc.Nodup →
      (names.foldl
        (fun acc value =>
          if replaceStarDot value ∈ acc then acc else acc ++ [replaceStarDot value])
        acc).Nodup := by
  intro names
  induction names with
  | nil => intro acc h; simpa using h
  | cons v rest ih =>
    intro acc hacc
    simp only [List.foldl_cons]
    apply ih
    by_cases hv : replaceStarDot v ∈ acc
    · simpa [if_pos hv] using hacc
    · simp [if_neg hv, List.nodup_append, hacc, hv]

/-- C3: the normalizer removes the leftmost-first occurrences of the
wildcard pattern from each name, occurrences in any position and not only
a leading one, and returns each normalized name exactly once; on the
SAN list with the wildcard entry plus the common name, the result as an
unordered set is the pair of the stripped and the plain name. -/
theorem c3_normalize_dedup :
    (∀ (names : List String) (s : String),
        s ∈ uniqueNormalizeCertNames names ↔ ∃ n ∈ names, replaceStarDot n = s) ∧
    (∀ names : List String, (uniqueNormalizeCertNames names).Nodup) ∧
    (∀ s : String,
        s ∈ uniqueNormalizeCertNames ["*.example.com", "a.example.com", "a.example.com"]
          ↔ (s = "example.com" ∨ s = "a.example.com")) ∧
    uniqueNormalizeCertNames ["a.*.b*.c"] = ["a.bc"] := by
  refine ⟨?_, ?_, ?_, by decide⟩
  · intro names s
    unfold uniqueNormalizeCertNames
    rw [mem_uniq_foldl]
    simp
  · intro names
    unfold uniqueNormalizeCertNames
    exact nodup_uniq_foldl names [] List.nodup_nil
  · intro s
    have h : uniqueNormalizeCertNames ["*.example.com", "a.example.com", "a.example.com"]
        = ["example.com", "a.example.com"] := by decide
    rw [h]
    simp

/-- Counting helper: a leading newline adds one. -/
theorem countLeadingNL_cons_nl (l : List Char) :
    countLeadingNL ('\n' :: l) = countLeadingNL l + 1 := by
  simp [countLeadingNL, List.takeWhile_cons]

/-- Dropping one leading newline decrements the leading-newline count. -/
theorem countLeadingNL_dropOne (r : List Char) :
    countLeadingNL (dropOneLeadingNL r) = countLeadingNL r - 1 := by
  cases r with
  | nil => simp [dropOneLeadingNL, countLeadingNL]
  | cons c t =>
    by_cases hc : c = '\n'
    · subst hc
      simp [dropOneLeadingNL, countLeadingNL_cons_nl]
    · simp [dropOneLeadingNL, hc, countLeadingNL, List.takeWhile_cons]

/-- Trailing-newline count of the emission step: trim at most one newline,
then append exactly one. -/
theorem countTrailingNL_trim_append (l : List Char) :
    countTrailingNL (trimNL l ++ ['\n']) = max (countTrailingNL l) 1 := by
  unfold countTrailingNL trimNL
  rw [List.reverse_append]
  simp only [List.reverse_cons, List.reverse_nil, List.nil_append,
    List.reverse_reverse, List.singleton_append]
  rw [countLeadingNL_cons_nl, countLeadingNL_dropOne]
  omega

/-- On a successful format, the primary sink receives the trimmed payload
followed by one newline, regardless of the file sink outcome. -/
theorem write_primaryWrites_ok (w : StandardWriter)
    (marshal : Response → Except String String) (pErr fErr : Option String)
    (ev : Response) (d : String) (hfmt : formatOf w marshal ev = Except.ok d) :
    (w.write marshal pErr fErr ev).primaryWrites = [trimSuffixNewline d, "\n"] := by
  unfold StandardWriter.write
  rw [hfmt]
  cases fErr <;> by_cases hw : w.hasOutputFile <;> simp [hw]

/-- C5 (amended): the code trims at most one trailing line terminator from
the formatted payload and appends exactly one, so the emitted primary
record ends with max(k, 1) terminators where k is the payload count of
trailing terminators; it ends with exactly one precisely when the payload
had at most one. -/
theorem c5_amended_single_trailing_trim (w : StandardWriter)
    (marshal : Response → Except String String) (pErr fErr : Option String)
    (ev : Response) (d : String) (hfmt : formatOf w marshal ev = Except.ok d) :
    countTrailingNL (strConcat ((w.write marshal pErr fErr ev).primaryWrites)).data
      = max (countTrailingNL d.data) 1 := by
  rw [write_primaryWrites_ok w marshal pErr fErr ev d hfmt]
  have h1 : strConcat [trimSuffixNewline d, "\n"] = trimSuffixNewline d ++ "\n" := by
    simp [strConcat]
  rw [h1]
  have h2 : (trimSuffixNewline d ++ "\n").data = trimNL d.data ++ ['\n'] := rfl
  rw [h2, countTrailingNL_trim_append]

/-- Counterexample to C5 as stated: a record whose formatted payload ends
with two line terminators is emitted with two trailing terminators, not
one, because TrimSuffix removes only a single newline. -/
theorem c5_counterexample_two_trailing :
    countTrailingNL
        (strConcat (((New optsBase).write marshalOk none none respTwoNL).primaryWrites)).data
      ≠ 1 := by
  decide

/-- Witness for the amended trim claim at a concrete record. -/
theorem c5_amended_single_trailing_trim_witness :
    formatOf (New optsBase) marshalOk respSample
      = Except.ok (formatStandard optsBase respSample) ∧
    countTrailingNL
        (strConcat (((New optsBase).write marshalOk none none respSample).primaryWrites)).data
      = max (countTrailingNL (formatStandard optsBase respSample).data) 1 :=
  ⟨rfl, c5_amended_single_trailing_trim (New optsBase) marshalOk none none respSample
    (formatStandard optsBase respSample) rfl⟩

/-- C2: when formatting fails, submit surfaces the wrapped format error
and writes nothing to the primary sink or the secondary sink. -/
theorem c2_format_error_no_writes :
    ∀ (w : StandardWriter) (marshal : Response → Except String String)
      (pErr fErr : Option String) (ev : Response) (e : String),
      formatOf w marshal ev = Except.error e →
      w.write marshal pErr fErr ev
        = { primaryWrites := [], fileWrites := [],
            err := some ("could not format output" ++ ": " ++ e) } := by
  intro w marshal pErr fErr ev e hfmt
  unfold StandardWriter.write
  rw [hfmt]
  rfl

/-- Witness: a json-mode writer whose marshal step fails. -/
theorem c2_format_error_no_writes_witness :
    formatOf (New optsJsonFile) marshalFail respSample = Except.error "boom" ∧
    (New optsJsonFile).write marshalFail none none respSample
      = { primaryWrites := [], fileWrites := [],
          err := some ("could not format output" ++ ": " ++ "boom") } :=
  ⟨rfl, c2_format_error_no_writes (New optsJsonFile) marshalFail none none respSample
    "boom" rfl⟩

/-- C1 (code evaluated at the failing input): with a secondary file sink
configured and the secondary write failing, submit returns no error, and
the primary sink writes fail silently as well: the branch on output.go
line 81 wraps the nil formatting error instead of the write error, and
errors.Wrap of nil is nil. -/
theorem c1_secondary_write_error_not_surfaced :
    ((New optsFile).write marshalOk (some "primary disk full")
        (some "secondary disk full") respSample).err = none ∧
    ((New optsFile).write marshalOk (some "primary disk full")
        (some "secondary disk full") respSample).primaryWrites.length = 2 := by
  constructor <;> decide

/-- The letter class and the digit-semicolon class of the regex are
disjoint, which makes the greedy scan deterministic. -/
theorem not_csibody_of_alpha (a : Char) (h : IsAlphaChar a) : ¬ IsCSIBody a := by
  rcases h with ⟨h1, h2⟩ | ⟨h1, h2⟩ <;> rintro (⟨g1, g2⟩ | g) <;> omega

/-- A successful tail match consumes at least one character. -/
theorem csiTail_length : ∀ (l r : List Char), csiTail l = some r → r.length < l.length := by
  intro l
  induction l with
  | nil => intro r h; simp [csiTail] at h
  | cons c rest ih =>
    intro r h
    by_cases h1 : IsCSIBody c
    · simp only [csiTail, if_pos h1] at h
      exact Nat.lt_trans (ih r h) (Nat.lt_succ_self _)
    · by_cases h2 : IsAlphaChar c
      · simp only [csiTail, if_neg h1, if_pos h2] at h
        cases h
        simp
      · simp only [csiTail, if_neg h1, if_neg h2] at h
        cases h

/-- A successful match consumes at least three characters. -/
theorem csiMatch_some_length :
    ∀ (l r : List Char), csiMatch l = some r → r.length + 2 < l.length := by
  intro l r h
  match l with
  | [] => simp [csiMatch] at h
  | [c] => simp [csiMatch] at h
  | c1 :: c2 :: rest =>
    by_cases hc : c1 = ESC ∧ c2 = '['
    · simp only [csiMatch, if_pos hc] at h
      have := csiTail_length rest r h
      simp only [List.length_cons]
      omega
    · simp only [csiMatch, if_neg hc] at h
      cases h

/-- A match can only start at an ESC character. -/
theorem csiMatch_cons_ne (c : Char) (l : List Char) (hc : c ≠ ESC) :
    csiMatch (c :: l) = none := by
  match l with
  | [] => rfl
  | c2 :: rest =>
    have hcond : ¬(c = ESC ∧ c2 = '[') := fun h => hc h.1
    simp only [csiMatch, if_neg hcond]

/-- The fuel argument of the scanner is irrelevant once it covers the
input length. -/
theorem stripFuel_congr :
    ∀ (f1 f2 : Nat) (l : List Char), l.length ≤ f1 → l.length ≤ f2 →
      stripFuel f1 l = stripFuel f2 l := by
  intro f1
  induction f1 with
  | zero =>
    intro f2 l h1 h2
    have : l = [] := List.eq_nil_of_length_eq_zero (Nat.le_zero.mp h1)
    subst this
    cases f2 <;> rfl
  | succ f1 ih =>
    intro f2 l h1 h2
    cases l with
    | nil => cases f2 <;> rfl
    | cons c rest =>
      cases f2 with
      | zero => simp at h2
      | succ f2 =>
        simp only [stripFuel]
        cases hm : csiMatch (c :: rest) with
        | some r2 =>
          have hlen := csiMatch_some_length (c :: rest) r2 hm
          simp only [List.length_cons] at hlen h1 h2
          exact ih f2 r2 (by omega) (by omega)
        | none =>
          simp only [List.length_cons] at h1 h2
          rw [ih f2 rest (by omega) (by omega)]

/-- Unfolding of the stripper on a matching position. -/
theorem stripEsc_match (c : Char) (rest r2 : List Char)
    (hm : csiMatch (c :: rest) = some r2) : stripEsc (c :: rest) = stripEsc r2 := by
  have hlen := csiMatch_some_length (c :: rest) r2 hm
  simp only [List.length_cons] at hlen
  show stripFuel (c :: rest).length (c :: rest) = stripFuel r2.length r2
  simp only [List.length_cons, stripFuel, hm]
  exact stripFuel_congr rest.length r2.length r2 (by omega) (le_refl _)

/-- Unfolding of the stripper on a non-matching position. -/
theorem stripEsc_cons_ne (c : Char) (rest : List Char) (hc : c ≠ ESC) :
    stripEsc (c :: rest) = c :: stripEsc rest := by
  have hm : csiMatch (c :: rest) = none := csiMatch_cons_ne c rest hc
  show stripFuel (c :: rest).length (c :: rest) = c :: stripFuel rest.length rest
  simp only [List.length_cons, stripFuel, hm]

/-- The stripper is the identity on ESC-free input. -/
theorem stripEsc_of_no_esc : ∀ (l : List Char), (∀ c ∈ l, c ≠ ESC) → stripEsc l = l := by
  intro l
  induction l with
  | nil => intro _; rfl
  | cons c rest ih =>
    intro h
    rw [stripEsc_cons_ne c rest (h c (List.mem_cons_self c rest))]
    rw [ih (fun d hd => h d (List.mem_cons_of_mem c hd))]

/-- ESC-free input holds no escape control sequence. -/
theorem hasEscapeSeq_of_no_esc :
    ∀ (l : List Char), (∀ c ∈ l, c ≠ ESC) → hasEscapeSeq l = false := by
  intro l
  induction l with
  | nil => intro _; rfl
  | cons c rest ih =>
    intro h
    simp only [hasEscapeSeq, csiMatch_cons_ne c rest (h c (List.mem_cons_self c rest)),
      Option.isSome_none, Bool.false_or]
    exact ih (fun d hd => h d (List.mem_cons_of_mem c hd))

/-- C8 counterexample: the stripper is not idempotent, because removing a
match can splice the surrounding fragments into a new escape sequence. -/
theorem c8_counterexample_not_idempotent :
    stripEsc (stripEsc ("\x1B[\x1B[0m0m".data)) ≠ stripEsc ("\x1B[\x1B[0m0m".data) := by
  decide

/-- C8 (amended): the stripper is idempotent on every input whose single
strip leaves no ESC character; in general a removal can create a new
escape sequence out of adjacent fragments and a second strip removes it. -/
theorem c8_amended_idempotent_no_esc_left :
    ∀ (l : List Char), (∀ c ∈ stripEsc l, c ≠ ESC) →
      stripEsc (stripEsc l) = stripEsc l :=
  fun l h => stripEsc_of_no_esc (stripEsc l) h

/-- Witness for the amended idempotence claim on an ordinary colorized
fragment. -/
theorem c8_amended_idempotent_no_esc_left_witness :
    noEscStr (stripEscStr "\x1B[36mhello\x1B[0m") = true ∧
    stripEsc (stripEsc ("\x1B[36mhello\x1B[0m".data)) = stripEsc ("\x1B[36mhello\x1B[0m".data) :=
  ⟨by decide, c8_amended_idempotent_no_esc_left ("\x1B[36mhello\x1B[0m".data) (by decide)⟩

/-- The greedy tail scan consumes a well-formed body and its final letter
exactly, leaving the rest untouched. -/
theorem csiTail_body :
    ∀ (body : List Char), (∀ c ∈ body, IsCSIBody c) → ∀ (a : Char), IsAlphaChar a →
      ∀ (rest : List Char), csiTail (body ++ a :: rest) = some rest := by
  intro body
  induction body with
  | nil =>
    intro _ a ha rest
    simp only [List.nil_append, csiTail, if_neg (not_csibody_of_alpha a ha), if_pos ha]
  | cons c bodyrest ih =>
    intro hb a ha rest
    simp only [List.cons_append, csiTail, if_pos (hb c (List.mem_cons_self c bodyrest))]
    exact ih (fun d hd => hb d (List.mem_cons_of_mem c hd)) a ha rest

/-- A well-formed color sequence matches the regex exactly. -/
theorem csiMatch_seq (body : List Char) (hb : ∀ c ∈ body, IsCSIBody c)
    (a : Char) (ha : IsAlphaChar a) (l : List Char) :
    csiMatch (ESC :: '[' :: (body ++ a :: l)) = some l := by
  simp only [csiMatch, if_pos (And.intro rfl rfl)]
  exact csiTail_body body hb a ha l

/-- ESC-free char lists are Clean. -/
theorem clean_of_no_esc : ∀ (l : List Char), (∀ c ∈ l, c ≠ ESC) → Clean l := by
  intro l
  induction l with
  | nil => intro _; exact Clean.nil
  | cons c rest ih =>
    intro h
    exact Clean.plain (h c (List.mem_cons_self c rest))
      (ih fun d hd => h d (List.mem_cons_of_mem c hd))

/-- Clean is closed under concatenation. -/
theorem clean_append : ∀ {l1 l2 : List Char}, Clean l1 → Clean l2 → Clean (l1 ++ l2) := by
  intro l1 l2 h1 h2
  induction h1 with
  | nil => simpa using h2
  | @plain c l hc _ ih => exact Clean.plain hc ih
  | @seq body a l hb ha _ ih =>
    have heq : (ESC :: '[' :: (body ++ a :: l)) ++ l2
        = ESC :: '[' :: (body ++ a :: (l ++ l2)) := by
      simp
    rw [heq]
    exact Clean.seq hb ha ih

/-- Stripping a Clean list removes every ESC character. -/
theorem clean_strip_no_esc : ∀ {l : List Char}, Clean l → ∀ c ∈ stripEsc l, c ≠ ESC := by
  intro l hl
  induction hl with
  | nil => intro c hc; simp [stripEsc, stripFuel] at hc
  | @plain c0 l0 hc _ ih =>
    rw [stripEsc_cons_ne c0 l0 hc]
    intro c hcmem
    rcases List.mem_cons.mp hcmem with h1 | h1
    · subst h1; exact hc
    · exact ih c h1
  | @seq body a l0 hb ha _ ih =>
    have hm : csiMatch (ESC :: '[' :: (body ++ a :: l0)) = some l0 :=
      csiMatch_seq body hb a ha l0
    rw [stripEsc_match _ _ _ hm]
    exact ih

/-- Clean survives removing a trailing newline. -/
theorem clean_of_append_nl :
    ∀ {x : List Char}, Clean x → ∀ (m : List Char), x = m ++ ['\n'] → Clean m := by
  intro x hx
  induction hx with
  | nil =>
    intro m hm
    exact absurd hm.symm (by simp)
  | @plain c l hc _ ih =>
    intro m hm
    cases m with
    | nil => exact Clean.nil
    | cons d m2 =>
      simp only [List.cons_append] at hm
      injection hm with h1 h2
      subst h1
      exact Clean.plain hc (ih m2 h2)
  | @seq body a l hb ha _ ih =>
    intro m hm
    cases m with
    | nil =>
      simp only [List.nil_append] at hm
      injection hm with h1 _
      exact absurd h1 (by decide)
    | cons d m2 =>
      simp only [List.cons_append] at hm
      injection hm with h1 hm2
      subst h1
      cases m2 with
      | nil =>
        simp only [List.nil_append] at hm2
        injection hm2 with h2 _
        exact absurd h2 (by decide)
      | cons e m3 =>
        simp only [List.cons_append] at hm2
        injection hm2 with h2 hm3
        subst h2
        rcases List.eq_nil_or_concat' l with hl0 | ⟨l2, z, hl2⟩
        · subst hl0
          obtain ⟨_, hb2⟩ := List.append_inj' hm3 (by simp)
          injection hb2 with hz1 _
          exact absurd (hz1 ▸ ha) (by decide)
        · subst hl2
          rw [← List.cons_append, ← List.append_assoc] at hm3
          obtain ⟨hm3eq, hz⟩ := List.append_inj' hm3 (by simp)
          injection hz with hz1 _
          subst hz1
          subst hm3eq
          exact Clean.seq hb ha (ih l2 rfl)

/-- Clean survives the TrimSuffix step of Write. -/
theorem clean_trimNL {l : List Char} (h : Clean l) : Clean (trimNL l) := by
  unfold trimNL
  rcases hr : l.reverse with _ | ⟨c, t⟩
  · exact Clean.nil
  · by_cases hc : c = '\n'
    · subst hc
      simp only [dropOneLeadingNL, if_pos rfl]
      apply clean_of_append_nl h t.reverse
      have h2 := congrArg List.reverse hr
      simpa [List.reverse_cons] using h2
    · simp only [dropOneLeadingNL, if_neg hc]
      have hl : (c :: t).reverse = l := by
        rw [← hr, List.reverse_reverse]
      rw [hl]
      exact h

/-- Appending preserves ESC-freeness. -/
theorem no_esc_append {a b : String} (ha : ∀ c ∈ a.data, c ≠ ESC)
    (hb : ∀ c ∈ b.data, c ≠ ESC) : ∀ c ∈ (a ++ b).data, c ≠ ESC := by
  intro c hc
  rw [String.data_append] at hc
  rcases List.mem_append.mp hc with h | h
  · exact ha c h
  · exact hb c h

/-- Comma-joining preserves ESC-freeness. -/
theorem no_esc_joinComma :
    ∀ (l : List String), (∀ s ∈ l, ∀ c ∈ s.data, c ≠ ESC) →
      ∀ c ∈ (joinComma l).data, c ≠ ESC := by
  intro l
  induction l with
  | nil =>
    intro _ c hc
    exact absurd hc (List.not_mem_nil c)
  | cons s rest ih =>
    intro h c hc
    cases rest with
    | nil =>
      rw [show joinComma [s] = s from rfl] at hc
      exact h s (List.mem_cons_self s []) c hc
    | cons t rest2 =>
      rw [show joinComma (s :: t :: rest2) = s ++ "," ++ joinComma (t :: rest2) from rfl] at hc
      refine no_esc_append (no_esc_append (h s (List.mem_cons_self s _)) ?_) ?_ c hc
      · intro d hd
        rw [show ("," : String).data = [','] from rfl] at hd
        rw [List.mem_singleton.mp hd]
        decide
      · exact ih (fun u hu d hd => h u (List.mem_cons_of_mem s hu) d hd)

/-- Conversion of a valid scalar value round-trips through Char.ofNat. -/
theorem toNat_charOfNat_valid (n : Nat) (h : n.isValidChar) : (Char.ofNat n).toNat = n := by
  rw [Char.ofNat, dif_pos h]
  rfl

/-- Uppercasing never introduces the ESC character. -/
theorem char_toUpper_ne_esc (c : Char) (hc : c ≠ ESC) : Char.toUpper c ≠ ESC := by
  show (if c.toNat ≥ 97 ∧ c.toNat ≤ 122 then Char.ofNat (c.toNat - 32) else c) ≠ ESC
  split
  · rename_i hrange
    intro heq
    have hvalid : (Char.toNat c - 32).isValidChar := Or.inl (by omega)
    have hv := congrArg Char.toNat heq
    rw [toNat_charOfNat_valid _ hvalid] at hv
    have hesc : Char.toNat ESC = 27 := rfl
    omega
  · exact hc

/-- The ASCII uppercase map preserves ESC-freeness. -/
theorem no_esc_goToUpper (s : String) (h : ∀ c ∈ s.data, c ≠ ESC) :
    ∀ c ∈ (goToUpper s).data, c ≠ ESC := by
  intro c hc
  rw [show (goToUpper s).data = s.data.map Char.toUpper from rfl] at hc
  obtain ⟨d, hd, rfl⟩ := List.mem_map.mp hc
  exact char_toUpper_ne_esc d (h d hd)

/-- Wildcard removal preserves ESC-freeness (fuel induction over the
length to handle the two-step recursion). -/
theorem no_esc_replaceStarDotChars :
    ∀ (n : Nat) (l : List Char), l.length ≤ n → (∀ c ∈ l, c ≠ ESC) →
      ∀ c ∈ replaceStarDotChars l, c ≠ ESC := by
  intro n
  induction n with
  | zero =>
    intro l hl _ c hc
    have h0 : l = [] := List.eq_nil_of_length_eq_zero (Nat.le_zero.mp hl)
    subst h0
    rw [replaceStarDotChars.eq_3] at hc
    exact absurd hc (List.not_mem_nil c)
  | succ n ih =>
    intro l hl h c hc
    cases l with
    | nil =>
      rw [replaceStarDotChars.eq_3] at hc
      exact absurd hc (List.not_mem_nil c)
    | cons c1 rest =>
      by_cases hsd : c1 = '*' ∧ ∃ r2, rest = '.' :: r2
      · obtain ⟨ha2, r2, hb2⟩ := hsd
        subst ha2
        subst hb2
        rw [replaceStarDotChars.eq_1] at hc
        refine ih r2 ?_ ?_ c hc
        · simp only [List.length_cons] at hl
          omega
        · intro d hd
          exact h d (List.mem_cons_of_mem _ (List.mem_cons_of_mem _ hd))
      · have hcond : ∀ (r2 : List Char), c1 = '*' → rest = '.' :: r2 → False := by
          intro r2 hA hB
          exact hsd ⟨hA, r2, hB⟩
        rw [replaceStarDotChars.eq_2 c1 rest hcond] at hc
        rcases List.mem_cons.mp hc with h1 | h1
        · rw [h1]
          exact h c1 (List.mem_cons_self _ _)
        · exact ih rest (by simp only [List.length_cons] at hl; omega)
            (fun d hd => h d (List.mem_cons_of_mem _ hd)) c h1

/-- String-level wildcard removal preserves ESC-freeness. -/
theorem no_esc_replaceStarDot (s : String) (h : ∀ c ∈ s.data, c ≠ ESC) :
    ∀ c ∈ (replaceStarDot s).data, c ≠ ESC :=
  no_esc_replaceStarDotChars s.data.length s.data (le_refl _) h

/-- The fingerprint lookup only ever returns a fingerprint or the empty
string, so it preserves ESC-freeness of the fingerprints. -/
theorem no_esc_hashValue (cert : CertificateResponse)
    (h1 : ∀ c ∈ cert.fingerprintHash.md5.data, c ≠ ESC)
    (h2 : ∀ c ∈ cert.fingerprintHash.sha1.data, c ≠ ESC)
    (h3 : ∀ c ∈ cert.fingerprintHash.sha256.data, c ≠ ESC)
    (hs : String) : ∀ c ∈ (hashValue cert hs).data, c ≠ ESC := by
  unfold hashValue
  split
  · exact h1
  · split
    · exact h2
    · split
      · exact h3
      · intro c hc
        exact absurd hc (List.not_mem_nil c)

/-- The aurora decorator output is Clean when the code is a digit string
and the decorated text is ESC-free. -/
theorem clean_auroraColor (e : Bool) (code s : String)
    (hcode : ∀ c ∈ code.data, IsCSIBody c) (hs : ∀ c ∈ s.data, c ≠ ESC) :
    Clean (auroraColor e code s).data := by
  cases e with
  | false => exact clean_of_no_esc _ hs
  | true =>
    have hdata : (auroraColor true code s).data
        = ESC :: '[' :: (code.data ++ 'm' :: (s.data ++ ESC :: '[' :: '0' :: 'm' :: [])) := by
      show ("\x1B[" ++ code ++ "m" ++ s ++ "\x1B[0m").data = _
      simp [ESC, List.append_assoc]
    rw [hdata]
    refine Clean.seq hcode (by decide) ?_
    refine clean_append (clean_of_no_esc _ hs) ?_
    exact @Clean.seq ['0'] 'm' [] (by decide) (by decide) Clean.nil

/-- Concatenating Clean strings yields a Clean string. -/
theorem clean_strConcat :
    ∀ (l : List String), (∀ s ∈ l, Clean s.data) → Clean (strConcat l).data := by
  intro l
  induction l with
  | nil => intro _; exact Clean.nil
  | cons s rest ih =>
    intro h
    rw [show (strConcat (s :: rest)).data = s.data ++ (strConcat rest).data from
      congrArg String.data rfl]
    exact clean_append (h s (List.mem_cons_self s rest))
      (ih fun t ht => h t (List.mem_cons_of_mem s ht))

/-- Unpacking of the decidable ESC-freeness predicate into per-field
facts. -/
theorem escFree_fields (out : Response) (h : escFree out = true) :
    (∀ c ∈ out.host.data, c ≠ ESC) ∧ (∀ c ∈ out.port.data, c ≠ ESC) ∧
    (∀ c ∈ out.version.data, c ≠ ESC) ∧ (∀ c ∈ out.cipher.data, c ≠ ESC) ∧
    (∀ c ∈ out.certificateResponse.subjectCN.data, c ≠ ESC) ∧
    (∀ s ∈ out.certificateResponse.subjectAN, ∀ c ∈ s.data, c ≠ ESC) ∧
    (∀ s ∈ out.certificateResponse.subjectOrg, ∀ c ∈ s.data, c ≠ ESC) ∧
    (∀ c ∈ out.certificateResponse.fingerprintHash.md5.data, c ≠ ESC) ∧
    (∀ c ∈ out.certificateResponse.fingerprintHash.sha1.data, c ≠ ESC) ∧
    (∀ c ∈ out.certificateResponse.fingerprintHash.sha256.data, c ≠ ESC) := by
  simp only [escFree, Bool.and_eq_true, noEscStr, List.all_eq_true, bne_iff_ne] at h
  tauto

/-- The formatted text record of a record with ESC-free fields is Clean:
an interleaving of ESC-free fragments and well-formed color sequences. -/
theorem formatStandard_clean (opts : Options) (out : Response) (h : escFree out = true) :
    Clean (formatStandard opts out).data := by
  obtain ⟨hhost, hport, hver, hciph, hcn, hsan, horg, hmd5, hsha1, hsha256⟩ :=
    escFree_fields out h
  have hpfx : ∀ c ∈ (outputPrefixStr opts out).data, c ≠ ESC := by
    unfold outputPrefixStr
    split
    · intro c hc
      exact absurd hc (List.not_mem_nil c)
    · exact no_esc_append (no_esc_append hhost (by decide)) hport
  have hnames : ∀ name ∈ uniqueNormalizeCertNames (certNames opts out.certificateResponse),
      ∀ c ∈ name.data, c ≠ ESC := by
    intro name hname
    have hmem := (mem_uniq_foldl (certNames opts out.certificateResponse) [] name).mp hname
    rcases hmem with hfalse | ⟨n, hn, he⟩
    · exact absurd hfalse (List.not_mem_nil name)
    · rw [← he]
      apply no_esc_replaceStarDot
      unfold certNames at hn
      rcases List.mem_append.mp hn with h1 | h1
      · by_cases hsan2 : opts.san = true
        · rw [if_pos hsan2] at h1
          exact hsan n h1
        · rw [if_neg hsan2] at h1
          exact absurd h1 (List.not_mem_nil n)
      · by_cases hcn2 : opts.cn = true
        · rw [if_pos hcn2] at h1
          rw [List.mem_singleton.mp h1]
          exact hcn
        · rw [if_neg hcn2] at h1
          exact absurd h1 (List.not_mem_nil n)
  rw [formatStandard_decomp]
  simp only [String.data_append]
  refine clean_append ?_ (clean_append ?_ (clean_append ?_ (clean_append ?_
    (clean_append ?_ (clean_append ?_ (clean_append ?_ ?_))))))
  · unfold specNameBlock
    apply clean_strConcat
    intro s hsmem
    obtain ⟨name, hnm, rfl⟩ := List.mem_map.mp hsmem
    unfold nameLine
    split
    · exact clean_of_no_esc _ (no_esc_append (hnames name hnm) (by decide))
    · simp only [String.data_append, List.append_assoc]
      refine clean_append (clean_of_no_esc _ hpfx) ?_
      refine clean_append (clean_of_no_esc _ (by decide)) ?_
      exact clean_append (clean_auroraColor _ _ _ (by decide) (hnames name hnm))
        (clean_of_no_esc _ (by decide))
  · unfold specSummaryPrefixSeg
    split
    · exact clean_of_no_esc _ hpfx
    · exact Clean.nil
  · unfold specOrgSeg
    split
    · simp only [String.data_append, List.append_assoc]
      refine clean_append (clean_of_no_esc _ (by decide)) ?_
      exact clean_append (clean_auroraColor _ _ _ (by decide) (no_esc_joinComma _ horg))
        (clean_of_no_esc _ (by decide))
    · exact Clean.nil
  · unfold specVersionSeg
    split
    · simp only [String.data_append, List.append_assoc]
      refine clean_append (clean_of_no_esc _ (by decide)) ?_
      exact clean_append (clean_auroraColor _ _ _ (by decide) (no_esc_goToUpper _ hver))
        (clean_of_no_esc _ (by decide))
    · exact Clean.nil
  · unfold specCipherSeg
    split
    · simp only [String.data_append, List.append_assoc]
      refine clean_append (clean_of_no_esc _ (by decide)) ?_
      exact clean_append (clean_auroraColor _ _ _ (by decide) hciph)
        (clean_of_no_esc _ (by decide))
    · exact Clean.nil
  · unfold specExpiredSeg
    split
    · simp only [String.data_append, List.append_assoc]
      refine clean_append (clean_of_no_esc _ (by decide)) ?_
      exact clean_append (clean_auroraColor _ _ _ (by decide) (by decide))
        (clean_of_no_esc _ (by decide))
    · exact Clean.nil
  · unfold specSelfSignedSeg
    split
    · simp only [String.data_append, List.append_assoc]
      refine clean_append (clean_of_no_esc _ (by decide)) ?_
      exact clean_append (clean_auroraColor _ _ _ (by decide) (by decide))
        (clean_of_no_esc _ (by decide))
    · exact Clean.nil
  · unfold specHashBlock
    split
    · apply clean_strConcat
      intro s hsmem
      obtain ⟨hh, hhm, rfl⟩ := List.mem_map.mp hsmem
      unfold hashSegmentOf
      simp only [String.data_append, List.append_assoc]
      refine clean_append (clean_of_no_esc _ (by decide)) ?_
      exact clean_append
        (clean_auroraColor _ _ _ (by decide)
          (no_esc_hashValue out.certificateResponse hmd5 hsha1 hsha256 hh))
        (clean_of_no_esc _ (by decide))
    · exact Clean.nil

/-- C4 (amended): in text mode with a file sink, for every record whose
string fields are free of the ESC character, the bytes handed to the file
sink contain no escape control sequence, even with color enabled; a field
that itself carries ESC fragments can defeat the single-pass stripper, as
the counterexample shows. -/
theorem c4_amended_file_sink_escape_free :
    ∀ (w : StandardWriter) (marshal : Response → Except String String)
      (pErr : Option String) (ev : Response),
      w.json = false → escFree ev = true →
      ∀ s ∈ (w.write marshal pErr none ev).fileWrites, hasEscapeSeq s.data = false := by
  intro w marshal pErr ev hjson hesc s hs
  have hfmt : formatOf w marshal ev = Except.ok (formatStandard w.options ev) := by
    simp [formatOf, hjson]
  unfold StandardWriter.write at hs
  rw [hfmt] at hs
  by_cases hw : w.hasOutputFile
  · simp only [hw, if_true, hjson] at hs
    have hseq : s = stripEscStr (trimSuffixNewline (formatStandard w.options ev)) := by
      simpa using hs
    subst hseq
    show hasEscapeSeq (stripEsc (trimNL (formatStandard w.options ev).data)) = false
    apply hasEscapeSeq_of_no_esc
    apply clean_strip_no_esc
    apply clean_trimNL
    exact formatStandard_clean w.options ev hesc
  · simp only [hw] at hs
    simp at hs

/-- C4 counterexample: a record whose host field splices two escape
fragments makes the primary output contain an escape sequence and, after
the single-pass strip, leaves a complete escape sequence in the bytes
handed to the file sink. -/
theorem c4_counterexample_escape_in_file_sink :
    (((New optsFile).write marshalOk none none respEscTrick).primaryWrites.map
        (fun s => hasEscapeSeq s.data) = [true, false]) ∧
    (((New optsFile).write marshalOk none none respEscTrick).fileWrites.map
        (fun s => hasEscapeSeq s.data) = [true]) := by
  constructor <;> decide

set_option maxRecDepth 8192 in
/-- Witness for the amended file-sink claim at a concrete escape-free
record with color enabled and several toggles on. -/
theorem c4_amended_file_sink_escape_free_witness :
    escFree respSample = true ∧
    hasEscapeSeq (stripEscStr (trimSuffixNewline (formatStandard optsRich respSample))).data
      = false :=
  ⟨by decide,
    c4_amended_file_sink_escape_free (New optsRich) marshalOk none respSample rfl (by decide)
      (stripEscStr (trimSuffixNewline (formatStandard optsRich respSample))) (by decide)⟩
